import Mathlib

/-!
Verification of the assignment-engine behavior of the
product-assignment-frontend repository.

The definitions below are a shallow embedding of the JavaScript source:

* `getAgentWorkloadCount` embeds `getAgentWorkloadCount`
  (src/unnamed/part_002 lines 816-827, identical in src/src/App.js
  lines 1402-1414);
* `slaHours`, `slaDiffOf`, `selectNext` embed the inline SLA selection of
  `requestTask` (src/unnamed/part_002 lines 837-860);
* `requestTask` embeds `requestTask` (src/unnamed/part_002 lines 830-881),
  with the backend `/assign` effect modelled from the spec (`applyAssign`);
* `renderCompletedTasksData` embeds the grouping computed by
  `renderCompletedTasks` (src/src/App.js lines 267-312).

Timestamps are integers (milliseconds); JavaScript object fields that may
be absent are `Option`s.  The `count` field of a product models the parsed
integer value: `none` stands for an absent or empty count, `some 0` for a
zero count; both are falsy in the JavaScript guard `product.count ? ... : 1`.
An `Except.error` result of an engine operation carries no state: the
caller's ledger and catalog are unchanged, which is how "fails with no
mutation" is expressed in this embedding.
-/

namespace ProductAssignment

/-- A work item of the product catalog (spec §3). -/
structure Product where
  id : Nat
  priority : Option String
  createdOn : Int
  count : Option Nat
  tenantId : Option String
  assigned : Bool
deriving DecidableEq

/-- A ledger record binding one product to one agent (spec §3). -/
structure Assignment where
  agentId : Nat
  productId : Nat
  assignedOn : Int
  completed : Bool
  completedOn : Option Int
  unassignedTime : Option Int
deriving DecidableEq

/-- A worker (spec §3); `id` embeds the JavaScript `_id` field. -/
structure Agent where
  id : Nat
  name : String
deriving DecidableEq

/-- The ledger + catalog pair mutated by the engine. -/
structure EngineState where
  products : List Product
  assignments : List Assignment
deriving DecidableEq

/-- Typed errors of `requestTask` (spec §7). -/
inductive RequestError where
  | CapacityExceeded
  | NoAvailableWork
deriving DecidableEq

instance {ε α : Type} [DecidableEq ε] [DecidableEq α] : DecidableEq (Except ε α) := fun a b =>
  match a, b with
  | .error e, .error f =>
    if h : e = f then .isTrue (by rw [h]) else .isFalse (by intro c; cases c; exact h rfl)
  | .error _, .ok _ => .isFalse (by intro c; cases c)
  | .ok _, .error _ => .isFalse (by intro c; cases c)
  | .ok x, .ok y =>
    if h : x = y then .isTrue (by rw [h]) else .isFalse (by intro c; cases c; exact h rfl)

/-- An assignment is active for `agentId` when it belongs to the agent and
neither the `completed` flag nor `unassignedTime` is set
(`a.agentId === agentId && !a.completed && !a.unassignedTime`). -/
def isActiveFor (agentId : Nat) (a : Assignment) : Bool :=
  a.agentId == agentId && !a.completed && a.unassignedTime.isNone

/-- The weight contributed by a product id, embedding the loop body of
`getAgentWorkloadCount`: `products.find(p => p.id === assign.productId)`
followed by `product && product.count ? parseInt(product.count, 10) : 1`. -/
def countOf (products : List Product) (pid : Nat) : Nat :=
  match products.find? (fun p => p.id == pid) with
  | some p =>
    match p.count with
    | some c => if c == 0 then 1 else c
    | none => 1
  | none => 1

/-- Embeds `getAgentWorkloadCount` (src/unnamed/part_002 lines 816-827):
filter the agent's active assignments, then sum the counts of the
referenced products.  It reads the ledger and catalog and mutates
nothing — in this embedding it is a pure function of its arguments. -/
def getAgentWorkloadCount (assignments : List Assignment) (products : List Product)
    (agentId : Nat) : Nat :=
  let agentAssignments := assignments.filter (isActiveFor agentId)
  agentAssignments.foldl (fun sum assign => sum + countOf products assign.productId) 0

/-- The spec's wording of the workload calculator (spec §4.1): the sum of
`count` (default 1) over all products referenced by the agent's active
assignments. -/
def workloadSpecSum (assignments : List Assignment) (products : List Product)
    (agentId : Nat) : Nat :=
  ((assignments.filter (isActiveFor agentId)).map (fun a => countOf products a.productId)).sum

/-- The SLA window in hours derived from a product's priority
(src/unnamed/part_002 lines 839-846): default 24, `P1` 2, `P2` 12, `P3` 24. -/
def slaHours (priority : Option String) : Nat :=
  if priority == some "P1" then 2
  else if priority == some "P2" then 12
  else if priority == some "P3" then 24
  else 24

/-- `slaDiff` of a product at time `now` (milliseconds):
`slaHours * 60 * 60 * 1000 − (now − createdOn)`
(src/unnamed/part_002 lines 847-851). -/
def slaDiffOf (p : Product) (now : Int) : Int :=
  (slaHours p.priority : Int) * 60 * 60 * 1000 - (now - p.createdOn)

/-- The JavaScript reduce combiner
`(prev, curr) => (prev.slaDiff < curr.slaDiff ? prev : curr)`
generalized over the value function: keeps `prev` only when strictly
smaller, so equal values replace the running choice. -/
def foldlMin {α : Type} (v : α → Int) (x : α) (xs : List α) : α :=
  xs.foldl (fun prev curr => if v prev < v curr then prev else curr) x

/-- Embeds the SLA selection of `requestTask`
(src/unnamed/part_002 lines 837-860): map candidates to their `slaDiff`,
prefer the within-SLA partition (`slaDiff > 0`) when non-empty, and reduce
the chosen partition with the strict-less combiner. -/
def selectNext (candidates : List Product) (now : Int) : Option Product :=
  let withDiff := candidates.map (fun p => (p, slaDiffOf p now))
  let withinSla := withDiff.filter (fun pc => 0 < pc.2)
  let chosen := if withinSla.isEmpty then withDiff else withinSla
  match chosen with
  | [] => none
  | x :: xs => some (foldlMin (fun pc => pc.2) x xs).1

/-- The partition of the candidate list that the selector reduces:
the within-SLA candidates when there are any, otherwise all candidates. -/
def chosenPartition (candidates : List Product) (now : Int) : List Product :=
  let within := candidates.filter (fun p => 0 < slaDiffOf p now)
  if within.isEmpty then candidates else within

/-- Sets the `assigned` flag of the product with the given id. -/
def setAssignedTrue (productId : Nat) (p : Product) : Product :=
  if p.id == productId then { p with assigned := true } else p

/-- Modelled from the spec: the backend `/assign` endpoint that
`requestTask` posts `{ agentId, productId }` to is not part of this
repository; per spec §4.3 it creates a new Assignment record with
`assignedOn = now` and sets the selected product's `assigned` flag to
`true`. -/
def applyAssign (s : EngineState) (agentId productId : Nat) (now : Int) : EngineState :=
  { products := s.products.map (setAssignedTrue productId),
    assignments := s.assignments ++
      [{ agentId := agentId, productId := productId, assignedOn := now,
         completed := false, completedOn := none, unassignedTime := none }] }

/-- Embeds `requestTask` (src/unnamed/part_002 lines 830-881), in the
source's order: gather the unassigned products and fail with
`NoAvailableWork` when there are none; run the SLA selection; then check
the capacity (`getAgentWorkloadCount >= 30`) and fail with
`CapacityExceeded`; otherwise commit the assignment (the `/assign` call,
modelled by `applyAssign`).  Failures return before any mutation. -/
def requestTask (s : EngineState) (agentId : Nat) (now : Int) :
    Except RequestError (EngineState × Product) :=
  let availableProducts := s.products.filter (fun p => !p.assigned)
  if availableProducts.isEmpty then .error .NoAvailableWork
  else
    match selectNext availableProducts now with
    | none => .error .NoAvailableWork
    | some selectedProduct =>
      if 30 ≤ getAgentWorkloadCount s.assignments s.products agentId then
        .error .CapacityExceeded
      else
        .ok (applyAssign s agentId selectedProduct.id now, selectedProduct)

/-- One row of the completed-tasks grouping of `renderCompletedTasks`
(src/src/App.js lines 270-279): the per-product accumulator
`{ count, completedOn, agentNames }`. -/
structure CompletedGroup where
  count : Nat
  completedOn : Option Int
  agentNames : List String
deriving DecidableEq

/-- The display name for an agent id
(`agents.find(agent => agent._id === a.agentId)`, `'Unknown'` when absent). -/
def agentNameFor (agents : List Agent) (agentId : Nat) : String :=
  match agents.find? (fun ag => ag.id == agentId) with
  | some ag => ag.name
  | none => "Unknown"

/-- JavaScript `Set.add`: append the name unless already present
(insertion order, duplicates dropped). -/
def insertName (names : List String) (n : String) : List String :=
  if names.contains n then names else names ++ [n]

/-- The per-assignment update of an existing group:
`grouped[key].count += 1; grouped[key].agentNames.add(name)`. -/
def bumpGroup (g : CompletedGroup) (n : String) : CompletedGroup :=
  { g with count := g.count + 1, agentNames := insertName g.agentNames n }

/-- Folding one completed assignment into the grouping object, embedding
the loop body of `renderCompletedTasks` (src/src/App.js lines 271-279);
the object is modelled as an association list in key-insertion order. -/
def addCompleted (agents : List Agent) (grouped : List (Nat × CompletedGroup))
    (a : Assignment) : List (Nat × CompletedGroup) :=
  let name := agentNameFor agents a.agentId
  if grouped.any (fun e => e.1 == a.productId) then
    grouped.map (fun e => if e.1 == a.productId then (e.1, bumpGroup e.2 name) else e)
  else
    grouped ++ [(a.productId, { count := 1, completedOn := a.completedOn,
                                agentNames := [name] })]

/-- Embeds the grouping computed by `renderCompletedTasks`
(src/src/App.js lines 267-279): filter the assignments with the
`completed` flag and fold them into the per-product groups. -/
def renderCompletedTasksData (assignments : List Assignment) (agents : List Agent) :
    List (Nat × CompletedGroup) :=
  (assignments.filter (fun a => a.completed)).foldl (addCompleted agents) []

/-- Lookup of one product's group in the grouping object. -/
def lookupGroup (gs : List (Nat × CompletedGroup)) (k : Nat) : Option CompletedGroup :=
  (gs.find? (fun e => e.1 == k)).map Prod.snd

/-- The option-level step a single completed assignment performs on the
group of its own product id. -/
def stepGroup (agents : List Agent) (o : Option CompletedGroup) (a : Assignment) :
    Option CompletedGroup :=
  match o with
  | some g => some (bumpGroup g (agentNameFor agents a.agentId))
  | none => some { count := 1, completedOn := a.completedOn,
                   agentNames := [agentNameFor agents a.agentId] }

/-- The spec-side description of one product's completed group, applied to
the list of that product's closed-by-completion assignments in ledger
order: the number of such assignments, the first one's `completedOn`, and
the distinct agent names in first-appearance order. -/
def completedGroupSpec (agents : List Agent) : List Assignment → Option CompletedGroup
  | [] => none
  | c :: cs =>
    some { count := cs.length + 1,
           completedOn := c.completedOn,
           agentNames := cs.foldl (fun ns a => insertName ns (agentNameFor agents a.agentId))
                           [agentNameFor agents c.agentId] }

/- Concrete states used by counterexamples and witnesses. -/

/-- A product of weight 29, already assigned. -/
def pAssigned29 : Product :=
  { id := 1, priority := some "P3", createdOn := 0, count := some 29,
    tenantId := none, assigned := true }

/-- An unassigned candidate of weight 2. -/
def pPending2 : Product :=
  { id := 2, priority := some "P3", createdOn := 0, count := some 2,
    tenantId := none, assigned := false }

/-- A candidate identical to `pPending2` except for its id — same
`slaDiff`, for tie scenarios. -/
def pTwin : Product := { pPending2 with id := 3 }

/-- An active assignment of agent 0 to product 1. -/
def aActive1 : Assignment :=
  { agentId := 0, productId := 1, assignedOn := 0, completed := false,
    completedOn := none, unassignedTime := none }

/-- Agent 0 holds product 1 (weight 29); product 2 (weight 2) is pending:
workload 29 with a count-2 candidate. -/
def s29 : EngineState := { products := [pAssigned29, pPending2], assignments := [aActive1] }

/-- The state produced by the successful `requestTask` on `s29`. -/
def s29after : EngineState :=
  match requestTask s29 0 0 with
  | .ok (s, _) => s
  | .error _ => s29

/-- A product of weight 30, already assigned. -/
def pAssigned30 : Product :=
  { id := 1, priority := some "P3", createdOn := 0, count := some 30,
    tenantId := none, assigned := true }

/-- Agent 0 at workload 30 with an empty candidate pool. -/
def sFull : EngineState := { products := [pAssigned30], assignments := [aActive1] }

/-- A product of weight 5, for the workload-on-deletion counterexample. -/
def pWeight5 : Product :=
  { id := 1, priority := some "P3", createdOn := 0, count := some 5,
    tenantId := none, assigned := true }

/-- An agent used by the completed-view counterexample. -/
def agentA : Agent := { id := 7, name := "A" }

/-- A completed assignment of agent 7 to product 1. -/
def aCompleted1 : Assignment :=
  { agentId := 7, productId := 1, assignedOn := 0, completed := true,
    completedOn := some 10, unassignedTime := none }

/- Theorems. -/

theorem foldl_add_eq_sum_map {α : Type} (f : α → Nat) :
    ∀ (l : List α) (n : Nat), l.foldl (fun s a => s + f a) n = n + (l.map f).sum := by
  intro l
  induction l with
  | nil => intro n; simp
  | cons a l ih =>
    intro n
    simp only [List.foldl_cons, List.map_cons, List.sum_cons, ih]
    omega

theorem workload_eq_sum (assignments : List Assignment) (products : List Product)
    (agentId : Nat) :
    getAgentWorkloadCount assignments products agentId
      = workloadSpecSum assignments products agentId := by
  unfold getAgentWorkloadCount workloadSpecSum
  rw [foldl_add_eq_sum_map]
  simp

/-- **C4.** `getAgentWorkloadCount` equals the sum, over the agent's active
assignments (neither `completed` nor `unassignedTime` set), of the
referenced product's count with default 1; being a pure function of the
ledger and catalog it has no side effects on agents, products or
assignments. -/
theorem getAgentWorkloadCount_eq_spec_sum (assignments : List Assignment)
    (products : List Product) (agentId : Nat) :
    getAgentWorkloadCount assignments products agentId
      = workloadSpecSum assignments products agentId :=
  workload_eq_sum assignments products agentId

theorem filter_pos_map_diff (candidates : List Product) (now : Int) :
    (candidates.map (fun p => (p, slaDiffOf p now))).filter (fun pc => 0 < pc.2)
      = (candidates.filter (fun p => 0 < slaDiffOf p now)).map
          (fun p => (p, slaDiffOf p now)) := by
  induction candidates with
  | nil => rfl
  | cons a l ih =>
    by_cases h : 0 < slaDiffOf a now
    · simp [List.filter_cons, h, ih]
    · simp [List.filter_cons, h, ih]

theorem foldlMin_pair_map (now : Int) :
    ∀ (xs : List Product) (x : Product),
      foldlMin (fun pc => pc.2) (x, slaDiffOf x now)
          (xs.map (fun p => (p, slaDiffOf p now)))
        = (foldlMin (fun p => slaDiffOf p now) x xs,
           slaDiffOf (foldlMin (fun p => slaDiffOf p now) x xs) now) := by
  intro xs
  induction xs with
  | nil => intro x; rfl
  | cons y ys ih =>
    intro x
    simp only [List.map_cons, foldlMin, List.foldl_cons]
    by_cases h : slaDiffOf x now < slaDiffOf y now
    · simpa [h] using ih x
    · simpa [h] using ih y

/-- `selectNext` computed directly on the chosen partition of candidates. -/
theorem selectNext_eq_chosen (candidates : List Product) (now : Int) :
    selectNext candidates now
      = match chosenPartition candidates now with
        | [] => none
        | x :: xs => some (foldlMin (fun p => slaDiffOf p now) x xs) := by
  unfold selectNext chosenPartition
  simp only [filter_pos_map_diff]
  rcases hw : candidates.filter (fun p => 0 < slaDiffOf p now) with _ | ⟨x, xs⟩
  · simp only [hw, List.map_nil, List.isEmpty_nil, if_true]
    cases candidates with
    | nil => rfl
    | cons a l => simp [foldlMin_pair_map]
  · simp only [hw, List.map_cons, List.isEmpty_cons, if_false, Bool.false_eq_true]
    simp [foldlMin_pair_map]

theorem foldlMin_split {α : Type} (v : α → Int) (x : α) (xs : List α) :
    ∃ l₁ l₂, x :: xs = l₁ ++ foldlMin v x xs :: l₂
      ∧ (∀ z ∈ x :: xs, v (foldlMin v x xs) ≤ v z)
      ∧ (∀ z ∈ l₂, v (foldlMin v x xs) < v z) := by
  induction xs using List.reverseRecOn with
  | nil => exact ⟨[], [], rfl, by simp [foldlMin], by simp⟩
  | append_singleton ys y ih =>
    obtain ⟨l₁, l₂, hsplit, hmin, hstrict⟩ := ih
    have hfold : foldlMin v x (ys ++ [y])
        = if v (foldlMin v x ys) < v y then foldlMin v x ys else y := by
      unfold foldlMin
      rw [List.foldl_append]
      rfl
    by_cases h : v (foldlMin v x ys) < v y
    · refine ⟨l₁, l₂ ++ [y], ?_, ?_, ?_⟩
      · rw [hfold, if_pos h, show x :: (ys ++ [y]) = (x :: ys) ++ [y] from rfl, hsplit]
        simp
      · intro z hz
        rw [hfold, if_pos h]
        rw [show x :: (ys ++ [y]) = (x :: ys) ++ [y] from rfl] at hz
        rcases List.mem_append.mp hz with hz | hz
        · exact hmin z hz
        · rw [List.mem_singleton.mp hz]; exact le_of_lt h
      · intro z hz
        rw [hfold, if_pos h]
        rcases List.mem_append.mp hz with hz | hz
        · exact hstrict z hz
        · rw [List.mem_singleton.mp hz]; exact h
    · refine ⟨x :: ys, [], ?_, ?_, ?_⟩
      · rw [hfold, if_neg h]; rfl
      · intro z hz
        rw [hfold, if_neg h]
        rw [show x :: (ys ++ [y]) = (x :: ys) ++ [y] from rfl] at hz
        rcases List.mem_append.mp hz with hz | hz
        · exact le_trans (le_of_not_lt h) (hmin z hz)
        · rw [List.mem_singleton.mp hz]
      · intro z hz
        exact absurd hz (List.not_mem_nil z)

theorem chosenPartition_ne_nil (candidates : List Product) (now : Int)
    (h : candidates ≠ []) : chosenPartition candidates now ≠ [] := by
  unfold chosenPartition
  rcases hw : candidates.filter (fun p => 0 < slaDiffOf p now) with _ | ⟨y, ys⟩
  · simpa [hw] using h
  · simp [hw]

theorem mem_chosenPartition (candidates : List Product) (now : Int) (p : Product)
    (h : p ∈ chosenPartition candidates now) : p ∈ candidates := by
  unfold chosenPartition at h
  by_cases hw : (candidates.filter (fun q => 0 < slaDiffOf q now)).isEmpty
  · simpa [hw] using h
  · rw [if_neg hw] at h
    exact (List.mem_filter.mp h).1

/-- **C3.** For a non-empty candidate list, with windows 2h for `P1`, 12h
for `P2`, 24h for `P3` or anything else, and
`slaDiff = window − (now − createdOn)`: when some candidate has
`slaDiff > 0` the selector returns a candidate with the smallest positive
`slaDiff`; otherwise it returns a candidate with the smallest `slaDiff`
over all candidates. -/
theorem selectNext_sla_policy (candidates : List Product) (now : Int)
    (h : candidates ≠ []) :
    ∃ p, selectNext candidates now = some p ∧ p ∈ candidates
      ∧ ((∃ q ∈ candidates, 0 < slaDiffOf q now) →
          0 < slaDiffOf p now
            ∧ ∀ q ∈ candidates, 0 < slaDiffOf q now → slaDiffOf p now ≤ slaDiffOf q now)
      ∧ ((∀ q ∈ candidates, slaDiffOf q now ≤ 0) →
          ∀ q ∈ candidates, slaDiffOf p now ≤ slaDiffOf q now) := by
  rw [selectNext_eq_chosen]
  rcases hc : chosenPartition candidates now with _ | ⟨x, xs⟩
  · exact absurd hc (chosenPartition_ne_nil candidates now h)
  · obtain ⟨l₁, l₂, hsplit, hmin, -⟩ := foldlMin_split (fun p => slaDiffOf p now) x xs
    set p := foldlMin (fun p => slaDiffOf p now) x xs with hp
    have hpmemc : p ∈ x :: xs := by
      rw [hsplit]; exact List.mem_append_right _ (List.mem_cons_self _ _)
    have hpmem : p ∈ candidates := mem_chosenPartition candidates now p (hc ▸ hpmemc)
    refine ⟨p, rfl, hpmem, ?_, ?_⟩
    · rintro ⟨q, hq, hqpos⟩
      have hqf : q ∈ candidates.filter (fun r => 0 < slaDiffOf r now) :=
        List.mem_filter.mpr ⟨hq, by simpa using hqpos⟩
      have hwne : (candidates.filter (fun r => 0 < slaDiffOf r now)).isEmpty = false := by
        rcases hf : candidates.filter (fun r => 0 < slaDiffOf r now) with _ | ⟨y, ys⟩
        · rw [hf] at hqf
          exact absurd hqf (List.not_mem_nil q)
        · rfl
      have hchosen : chosenPartition candidates now
          = candidates.filter (fun r => 0 < slaDiffOf r now) := by
        simp only [chosenPartition, hwne, Bool.false_eq_true, if_false]
      have hppos : 0 < slaDiffOf p now := by
        have : p ∈ candidates.filter (fun r => 0 < slaDiffOf r now) := by
          rw [← hchosen, hc]; exact hpmemc
        simpa using (List.mem_filter.mp this).2
      refine ⟨hppos, ?_⟩
      intro r hr hrpos
      have : r ∈ x :: xs := by
        rw [← hc, hchosen]
        exact List.mem_filter.mpr ⟨hr, by simpa using hrpos⟩
      exact hmin r this
    · intro hall r hr
      have hwnil : candidates.filter (fun s => 0 < slaDiffOf s now) = [] := by
        rcases hf : candidates.filter (fun s => 0 < slaDiffOf s now) with _ | ⟨y, ys⟩
        · rfl
        · have hy := List.mem_filter.mp (hf ▸ List.mem_cons_self y ys)
          have := hall y hy.1
          have hypos : 0 < slaDiffOf y now := by simpa using hy.2
          omega
      have hchosen : chosenPartition candidates now = candidates := by
        simp only [chosenPartition, hwnil, List.isEmpty_nil, if_true]
      have : r ∈ x :: xs := by rw [← hc, hchosen]; exact hr
      exact hmin r this

/-- **C8.** The SLA selection step is deterministic: identical candidate
lists (same elements, same order) and the same `now` give the same result,
ties included — `selectNext` is a pure function of its two arguments. -/
theorem selectNext_deterministic (c₁ c₂ : List Product) (n₁ n₂ : Int)
    (hc : c₁ = c₂) (hn : n₁ = n₂) : selectNext c₁ n₁ = selectNext c₂ n₂ := by
  subst hc
  subst hn
  rfl

/-- **C9.** The implicit tie-break: on any non-empty candidate list the
selector returns the element of the chosen partition (within-SLA when
non-empty, otherwise all candidates, both in input-list order) that occurs
last among those attaining the minimal `slaDiff` — every element strictly
after the returned one has a strictly larger `slaDiff`, because the reduce
combiner `prev.slaDiff < curr.slaDiff ? prev : curr` replaces the running
choice on equality. -/
theorem selectNext_tie_break_last (candidates : List Product) (now : Int)
    (h : candidates ≠ []) :
    ∃ p l₁ l₂, selectNext candidates now = some p
      ∧ chosenPartition candidates now = l₁ ++ p :: l₂
      ∧ (∀ q ∈ chosenPartition candidates now, slaDiffOf p now ≤ slaDiffOf q now)
      ∧ (∀ q ∈ l₂, slaDiffOf p now < slaDiffOf q now) := by
  rw [selectNext_eq_chosen]
  rcases hc : chosenPartition candidates now with _ | ⟨x, xs⟩
  · exact absurd hc (chosenPartition_ne_nil candidates now h)
  · obtain ⟨l₁, l₂, hsplit, hmin, hstrict⟩ := foldlMin_split (fun p => slaDiffOf p now) x xs
    exact ⟨foldlMin (fun p => slaDiffOf p now) x xs, l₁, l₂, rfl, hsplit, hmin, hstrict⟩

theorem selectNext_of_ne_nil (l : List Product) (now : Int) (h : l ≠ []) :
    ∃ p, selectNext l now = some p := by
  rw [selectNext_eq_chosen]
  rcases hc : chosenPartition l now with _ | ⟨x, xs⟩
  · exact absurd hc (chosenPartition_ne_nil l now h)
  · exact ⟨_, rfl⟩

/-- **C6.** When the candidate pool (products with `assigned = false`) is
empty, `requestTask` fails with `NoAvailableWork`; the error return
carries no state, so ledger and catalog are unmutated. -/
theorem requestTask_no_available_work (s : EngineState) (agentId : Nat) (now : Int)
    (h : s.products.filter (fun p => !p.assigned) = []) :
    requestTask s agentId now = .error .NoAvailableWork := by
  simp only [requestTask, h]
  rfl

/-- **C1 (amended).** `requestTask` fails with `CapacityExceeded` exactly
when the candidate pool is non-empty and the agent's workload is 30 or
more; the empty-pool check precedes the capacity check, so with an empty
pool the failure is `NoAvailableWork` even at workload ≥ 30.  A failure
returns before the `/assign` call, so no mutation occurs, and at workload
< 30 the request is never rejected for capacity. -/
theorem requestTask_capacity_error_iff (s : EngineState) (agentId : Nat) (now : Int) :
    requestTask s agentId now = .error .CapacityExceeded
      ↔ s.products.filter (fun p => !p.assigned) ≠ []
          ∧ 30 ≤ getAgentWorkloadCount s.assignments s.products agentId := by
  simp only [requestTask]
  rcases hf : s.products.filter (fun p => !p.assigned) with _ | ⟨x, xs⟩
  · rw [hf]
    simp
  · rw [hf]
    obtain ⟨p, hp⟩ := selectNext_of_ne_nil (x :: xs) now (by simp)
    rw [hp]
    simp only [List.isEmpty_cons, Bool.false_eq_true, if_false]
    by_cases hw : 30 ≤ getAgentWorkloadCount s.assignments s.products agentId
    · simp [hw]
    · simp [hw]

/-- **C2 (amended).** At workload exactly 29 with a non-empty candidate
pool, `requestTask` is not rejected at all — the capacity precondition
`29 < 30` is satisfied, whatever the count of the pending candidate; in
src/unnamed/part_002 the capacity check runs after the SLA selection,
though still before any mutation. -/
theorem requestTask_at_29_not_rejected (s : EngineState) (agentId : Nat) (now : Int)
    (h29 : getAgentWorkloadCount s.assignments s.products agentId = 29)
    (hav : s.products.filter (fun p => !p.assigned) ≠ []) :
    ∃ r, requestTask s agentId now = .ok r := by
  simp only [requestTask]
  rcases hf : s.products.filter (fun p => !p.assigned) with _ | ⟨x, xs⟩
  · exact absurd hf hav
  · rw [hf]
    obtain ⟨p, hp⟩ := selectNext_of_ne_nil (x :: xs) now (by simp)
    rw [hp]
    simp only [List.isEmpty_cons, Bool.false_eq_true, if_false]
    rw [h29]
    norm_num

theorem setAssignedTrue_id (productId : Nat) (p : Product) :
    (setAssignedTrue productId p).id = p.id := by
  unfold setAssignedTrue
  split <;> rfl

theorem setAssignedTrue_count (productId : Nat) (p : Product) :
    (setAssignedTrue productId p).count = p.count := by
  unfold setAssignedTrue
  split <;> rfl

theorem find?_map_setAssignedTrue (ps : List Product) (productId x : Nat) :
    (ps.map (setAssignedTrue productId)).find? (fun p => p.id == x)
      = (ps.find? (fun p => p.id == x)).map (setAssignedTrue productId) := by
  induction ps with
  | nil => rfl
  | cons q qs ih =>
    simp only [List.map_cons, List.find?_cons, setAssignedTrue_id]
    by_cases hq : (q.id == x) = true
    · simp [hq]
    · simp [hq, ih]

theorem countOf_map_setAssignedTrue (ps : List Product) (productId x : Nat) :
    countOf (ps.map (setAssignedTrue productId)) x = countOf ps x := by
  unfold countOf
  rw [find?_map_setAssignedTrue]
  cases hfind : ps.find? (fun p => p.id == x) with
  | none => rfl
  | some p => simp [setAssignedTrue_count]

theorem workload_append_active (asg : List Assignment) (a : Assignment)
    (ps : List Product) (agentId : Nat) (ha : isActiveFor agentId a = true) :
    getAgentWorkloadCount (asg ++ [a]) ps agentId
      = getAgentWorkloadCount asg ps agentId + countOf ps a.productId := by
  rw [workload_eq_sum, workload_eq_sum]
  unfold workloadSpecSum
  rw [List.filter_append]
  simp [List.filter_cons, ha]

theorem workload_map_setAssignedTrue (asg : List Assignment) (ps : List Product)
    (productId agentId : Nat) :
    getAgentWorkloadCount asg (ps.map (setAssignedTrue productId)) agentId
      = getAgentWorkloadCount asg ps agentId := by
  rw [workload_eq_sum, workload_eq_sum]
  unfold workloadSpecSum
  simp only [countOf_map_setAssignedTrue]

/-- **C5 (amended).** A successful `requestTask` implies the workload was
at most 29 beforehand, and afterwards it equals the old workload plus the
assigned product's weight — so it is bounded by `29 + count(assigned
product)`, and the claimed `≤ 30` bound holds only when that weight is 1
(the capacity check compares the pre-assignment workload alone against
30). -/
theorem requestTask_success_workload (s : EngineState) (agentId : Nat) (now : Int)
    (s' : EngineState) (p : Product)
    (h : requestTask s agentId now = .ok (s', p)) :
    getAgentWorkloadCount s.assignments s.products agentId ≤ 29
      ∧ getAgentWorkloadCount s'.assignments s'.products agentId
          = getAgentWorkloadCount s.assignments s.products agentId
              + countOf s'.products p.id := by
  simp only [requestTask] at h
  rcases hf : s.products.filter (fun q => !q.assigned) with _ | ⟨x, xs⟩
  · rw [hf] at h
    simp at h
  · rw [hf] at h
    obtain ⟨q, hq⟩ := selectNext_of_ne_nil (x :: xs) now (by simp)
    rw [hq] at h
    simp only [List.isEmpty_cons, Bool.false_eq_true, if_false] at h
    by_cases hw : 30 ≤ getAgentWorkloadCount s.assignments s.products agentId
    · rw [if_pos hw] at h
      cases h
    · rw [if_neg hw] at h
      injection h with h1
      have hs' : applyAssign s agentId q.id now = s' := congrArg Prod.fst h1
      have hpq : q = p := congrArg Prod.snd h1
      subst hs'
      subst hpq
      refine ⟨by omega, ?_⟩
      show getAgentWorkloadCount
          (s.assignments ++
            [{ agentId := agentId, productId := q.id, assignedOn := now,
               completed := false, completedOn := none, unassignedTime := none }])
          (s.products.map (setAssignedTrue q.id)) agentId
        = getAgentWorkloadCount s.assignments s.products agentId
            + countOf (s.products.map (setAssignedTrue q.id)) q.id
      rw [workload_append_active _ _ _ _ (by simp [isActiveFor])]
      rw [workload_map_setAssignedTrue]

/-- **C1 counterexample.** At workload 30 with an empty candidate pool
(`sFull`), `requestTask` fails with `NoAvailableWork`, not
`CapacityExceeded` — so "fails with CapacityExceeded exactly when
workload ≥ 30" is false as stated. -/
theorem requestTask_capacity_not_iff_cex :
    getAgentWorkloadCount sFull.assignments sFull.products 0 = 30
      ∧ requestTask sFull 0 0 = .error .NoAvailableWork
      ∧ requestTask sFull 0 0 ≠ .error .CapacityExceeded := by decide

/-- **C2 counterexample.** In `s29` agent 0 has workload 29 and the single
pending candidate (product 2) has count 2, yet `requestTask` is not
rejected with `CapacityExceeded` (it succeeds): the claimed rejection does
not happen. -/
theorem requestTask_at_29_rejected_cex :
    getAgentWorkloadCount s29.assignments s29.products 0 = 29
      ∧ countOf s29.products 2 = 2
      ∧ requestTask s29 0 0 ≠ .error .CapacityExceeded := by decide

/-- **C5 counterexample.** From `s29` (workload 29, pending candidate of
weight 2) `requestTask` succeeds and leaves agent 0 at workload 31 > 30:
the capacity invariant `workloadOf ≤ 30` after any successful
`requestTask` is violated. -/
theorem capacity_invariant_cex :
    requestTask s29 0 0 = .ok (s29after, pPending2)
      ∧ getAgentWorkloadCount s29after.assignments s29after.products 0 = 31 := by decide

theorem find?_map_updateKey (g : List (Nat × CompletedGroup)) (k : Nat)
    (f : CompletedGroup → CompletedGroup) :
    (g.map (fun e => if e.1 == k then (e.1, f e.2) else e)).find? (fun e => e.1 == k)
      = (g.find? (fun e => e.1 == k)).map (fun e => (e.1, f e.2)) := by
  induction g with
  | nil => rfl
  | cons q qs ih =>
    by_cases hq : (q.1 == k) = true
    · have h1 : (if (q.1 == k) = true then (q.1, f q.2) else q) = (q.1, f q.2) := if_pos hq
      simp only [List.map_cons]
      rw [h1]
      simp only [List.find?_cons]
      rw [hq]
      rfl
    · have h1 : (if (q.1 == k) = true then (q.1, f q.2) else q) = q := if_neg hq
      have hqf : (q.1 == k) = false := by simpa using hq
      simp only [List.map_cons]
      rw [h1]
      simp only [List.find?_cons]
      rw [hqf]
      exact ih

theorem find?_map_updateKey_other (g : List (Nat × CompletedGroup)) (pid k : Nat)
    (f : CompletedGroup → CompletedGroup) (hne : k ≠ pid) :
    (g.map (fun e => if e.1 == pid then (e.1, f e.2) else e)).find? (fun e => e.1 == k)
      = g.find? (fun e => e.1 == k) := by
  induction g with
  | nil => rfl
  | cons q qs ih =>
    by_cases hq : (q.1 == pid) = true
    · have h1 : (if (q.1 == pid) = true then (q.1, f q.2) else q) = (q.1, f q.2) := if_pos hq
      have hq1 : q.1 = pid := by simpa using hq
      have hqk : (q.1 == k) = false := by
        simp only [beq_eq_false_iff_ne, ne_eq, hq1]
        exact fun h => hne h.symm
      simp only [List.map_cons]
      rw [h1]
      simp only [List.find?_cons]
      rw [hqk]
      exact ih
    · have h1 : (if (q.1 == pid) = true then (q.1, f q.2) else q) = q := if_neg hq
      simp only [List.map_cons]
      rw [h1]
      simp only [List.find?_cons]
      by_cases hqk : (q.1 == k) = true
      · rw [hqk]
      · have hqkf : (q.1 == k) = false := by simpa using hqk
        rw [hqkf]
        exact ih

theorem lookupGroup_addCompleted_self (agents : List Agent)
    (g : List (Nat × CompletedGroup)) (a : Assignment) :
    lookupGroup (addCompleted agents g a) a.productId
      = stepGroup agents (lookupGroup g a.productId) a := by
  by_cases hany : (g.any (fun e => e.1 == a.productId)) = true
  · simp only [addCompleted, hany, if_true, lookupGroup, stepGroup]
    rw [find?_map_updateKey g a.productId
      (fun x => bumpGroup x (agentNameFor agents a.agentId))]
    cases hfind : g.find? (fun e => e.1 == a.productId) with
    | none =>
      exfalso
      rw [List.find?_eq_none] at hfind
      obtain ⟨e, he, hp⟩ := List.any_eq_true.mp hany
      exact hfind e he hp
    | some e => rfl
  · simp only [addCompleted, hany, Bool.false_eq_true, if_false, lookupGroup, stepGroup]
    have hnone : g.find? (fun e => e.1 == a.productId) = none := by
      rw [List.find?_eq_none]
      intro x hx hpx
      exact hany (List.any_eq_true.mpr ⟨x, hx, hpx⟩)
    rw [List.find?_append, hnone]
    simp only [Option.none_or, List.find?_cons, beq_self_eq_true]
    rfl

theorem lookupGroup_addCompleted_other (agents : List Agent)
    (g : List (Nat × CompletedGroup)) (a : Assignment) (k : Nat)
    (hne : k ≠ a.productId) :
    lookupGroup (addCompleted agents g a) k = lookupGroup g k := by
  by_cases hany : (g.any (fun e => e.1 == a.productId)) = true
  · simp only [addCompleted, hany, if_true, lookupGroup]
    rw [find?_map_updateKey_other g a.productId k
      (fun x => bumpGroup x (agentNameFor agents a.agentId)) hne]
  · simp only [addCompleted, hany, Bool.false_eq_true, if_false, lookupGroup]
    rw [List.find?_append]
    have hpk : (a.productId == k) = false := by
      simp only [beq_eq_false_iff_ne, ne_eq]
      exact fun h => hne h.symm
    cases hf : g.find? (fun e => e.1 == k) with
    | none =>
      simp only [Option.none_or, List.find?_cons, hpk, List.find?_nil]
    | some e => simp only [Option.or_some]

theorem lookupGroup_fold (agents : List Agent) (k : Nat) :
    ∀ (cs : List Assignment) (g : List (Nat × CompletedGroup)),
      lookupGroup (cs.foldl (addCompleted agents) g) k
        = (cs.filter (fun a => a.productId == k)).foldl (stepGroup agents)
            (lookupGroup g k) := by
  intro cs
  induction cs with
  | nil => intro g; rfl
  | cons a cs ih =>
    intro g
    simp only [List.foldl_cons, List.filter_cons]
    by_cases ha : (a.productId == k) = true
    · have hak : a.productId = k := by simpa using ha
      subst hak
      simp only [ha, if_true, List.foldl_cons]
      rw [ih, lookupGroup_addCompleted_self]
    · have hka : k ≠ a.productId := fun h => ha (by simp [h])
      simp only [ha, Bool.false_eq_true, if_false]
      rw [ih, lookupGroup_addCompleted_other _ _ _ _ hka]

theorem stepGroup_fold_some (agents : List Agent) :
    ∀ (l : List Assignment) (g : CompletedGroup),
      l.foldl (stepGroup agents) (some g)
        = some { count := g.count + l.length,
                 completedOn := g.completedOn,
                 agentNames := l.foldl
                   (fun ns a => insertName ns (agentNameFor agents a.agentId))
                   g.agentNames } := by
  intro l
  induction l with
  | nil => intro g; simp
  | cons a l ih =>
    intro g
    simp only [List.foldl_cons, stepGroup, bumpGroup]
    rw [ih]
    simp only [Option.some.injEq, CompletedGroup.mk.injEq, List.length_cons,
      and_true, true_and]
    omega

/-- **C7 (amended).** The completed view groups exactly the assignments
with the `completed` flag by `productId`; for each group it counts the
number of completed assignments (one per assignment — the referenced
product's `count` weight is not read), collects the distinct agent names
(`'Unknown'` for an unknown agent id) in first-appearance order, and
reports the `completedOn` of the group's first assignment in ledger
order. -/
theorem renderCompletedTasks_groups (assignments : List Assignment)
    (agents : List Agent) (k : Nat) :
    lookupGroup (renderCompletedTasksData assignments agents) k
      = completedGroupSpec agents
          ((assignments.filter (fun a => a.completed)).filter
            (fun a => a.productId == k)) := by
  unfold renderCompletedTasksData
  rw [lookupGroup_fold]
  have hnil : lookupGroup ([] : List (Nat × CompletedGroup)) k = none := rfl
  rw [hnil]
  cases hl : (assignments.filter (fun a => a.completed)).filter
      (fun a => a.productId == k) with
  | nil => rfl
  | cons c cs =>
    simp only [List.foldl_cons, stepGroup]
    rw [stepGroup_fold_some]
    simp only [completedGroupSpec, Option.some.injEq, CompletedGroup.mk.injEq,
      and_true, true_and]
    omega

/-- **C7 counterexample.** One completed assignment on a product of weight
5: the completed view reports a group count of 1 (the number of completed
assignments), not the product's count 5 — the view does not aggregate the
weight. -/
theorem renderCompleted_weight_cex :
    renderCompletedTasksData [aCompleted1] [agentA]
        = [(1, { count := 1, completedOn := some 10, agentNames := ["A"] })]
      ∧ aCompleted1.productId = pWeight5.id
      ∧ countOf [pWeight5] 1 = 5
      ∧ (1 : Nat) ≠ 5 := by decide

theorem countOf_eq_of_find_none (ps : List Product) (x : Nat)
    (hf : ps.find? (fun p => p.id == x) = none) : countOf ps x = 1 := by
  unfold countOf
  rw [hf]

theorem countOf_eq_of_find_some (ps : List Product) (x : Nat) (p : Product)
    (hf : ps.find? (fun q => q.id == x) = some p) :
    countOf ps x
      = match p.count with
        | some c => if c == 0 then 1 else c
        | none => 1 := by
  unfold countOf
  rw [hf]

theorem countOf_pos (ps : List Product) (x : Nat) : 1 ≤ countOf ps x := by
  cases hf : ps.find? (fun p => p.id == x) with
  | none => rw [countOf_eq_of_find_none ps x hf]
  | some p =>
    rw [countOf_eq_of_find_some ps x p hf]
    cases hc : p.count with
    | none => exact Nat.le_refl 1
    | some c =>
      show 1 ≤ if (c == 0) = true then 1 else c
      by_cases h0 : (c == 0) = true
      · rw [if_pos h0]
      · rw [if_neg h0]
        have h1 : c ≠ 0 := by simpa using h0
        omega

theorem length_le_sum_map {α : Type} (f : α → Nat) (h : ∀ a, 1 ≤ f a) :
    ∀ l : List α, l.length ≤ (l.map f).sum := by
  intro l
  induction l with
  | nil => simp
  | cons a l ih =>
    simp only [List.length_cons, List.map_cons, List.sum_cons]
    have := h a
    omega

/-- **C10 (amended).** An active assignment whose `productId` matches no
catalog product, or whose matched product has an absent or zero count,
contributes exactly 1 to the workload (never 0); consequently the workload
never falls below the number of the agent's active assignments when
product records are deleted — but it can still decrease, since a deleted
product's contribution drops from its count `c ≥ 2` to 1. -/
theorem workload_missing_or_falsy_contributes_one (products : List Product)
    (assignments : List Assignment) (agentId pid : Nat)
    (h : products.find? (fun p => p.id == pid) = none
          ∨ ∃ p, products.find? (fun p2 => p2.id == pid) = some p
              ∧ (p.count = none ∨ p.count = some 0)) :
    countOf products pid = 1
      ∧ (assignments.filter (isActiveFor agentId)).length
          ≤ getAgentWorkloadCount assignments products agentId := by
  constructor
  · rcases h with h | ⟨p, hp, hc⟩
    · exact countOf_eq_of_find_none products pid h
    · rw [countOf_eq_of_find_some products pid p hp]
      rcases hc with hc | hc <;> simp [hc]
  · rw [workload_eq_sum]
    unfold workloadSpecSum
    exact length_le_sum_map _
      (fun (a : Assignment) => countOf_pos products a.productId) _

/-- **C10 counterexample.** Deleting the weight-5 product of an active
assignment drops the agent's workload from 5 to 1: "workloadOf never
decreases when an assignment's product record is deleted" is false. -/
theorem workload_decreases_on_delete_cex :
    getAgentWorkloadCount [aActive1] [pWeight5] 0 = 5
      ∧ getAgentWorkloadCount [aActive1] [] 0 = 1
      ∧ (1 : Nat) < 5 := by decide

/-- Witness: the SLA policy theorem applied to the concrete singleton
candidate list `[pPending2]` at `now = 0`. -/
theorem selectNext_sla_policy_witness :
    ([pPending2] : List Product) ≠ []
      ∧ ∃ p, selectNext [pPending2] 0 = some p ∧ p ∈ [pPending2]
          ∧ ((∃ q ∈ [pPending2], 0 < slaDiffOf q 0) →
              0 < slaDiffOf p 0
                ∧ ∀ q ∈ [pPending2], 0 < slaDiffOf q 0 → slaDiffOf p 0 ≤ slaDiffOf q 0)
          ∧ ((∀ q ∈ [pPending2], slaDiffOf q 0 ≤ 0) →
              ∀ q ∈ [pPending2], slaDiffOf p 0 ≤ slaDiffOf q 0) :=
  ⟨by decide, selectNext_sla_policy [pPending2] 0 (by decide)⟩

/-- Witness: determinism of the selector on a concrete candidate list
containing a tie (`pPending2` and `pTwin` have equal `slaDiff`). -/
theorem selectNext_deterministic_witness :
    ([pPending2, pTwin] : List Product) = [pPending2, pTwin]
      ∧ (0 : Int) = 0
      ∧ slaDiffOf pPending2 0 = slaDiffOf pTwin 0
      ∧ selectNext [pPending2, pTwin] 0 = selectNext [pPending2, pTwin] 0 :=
  ⟨rfl, rfl, by decide,
   selectNext_deterministic [pPending2, pTwin] [pPending2, pTwin] 0 0 rfl rfl⟩

/-- Witness: the tie-break theorem applied to the concrete two-element
candidate list `[pPending2, pTwin]` whose elements share one `slaDiff`. -/
theorem selectNext_tie_break_last_witness :
    ([pPending2, pTwin] : List Product) ≠ []
      ∧ ∃ p l₁ l₂, selectNext [pPending2, pTwin] 0 = some p
          ∧ chosenPartition [pPending2, pTwin] 0 = l₁ ++ p :: l₂
          ∧ (∀ q ∈ chosenPartition [pPending2, pTwin] 0, slaDiffOf p 0 ≤ slaDiffOf q 0)
          ∧ (∀ q ∈ l₂, slaDiffOf p 0 < slaDiffOf q 0) :=
  ⟨by decide, selectNext_tie_break_last [pPending2, pTwin] 0 (by decide)⟩

/-- Witness: the empty-pool failure on the concrete state `sFull`. -/
theorem requestTask_no_available_work_witness :
    sFull.products.filter (fun p => !p.assigned) = []
      ∧ requestTask sFull 0 0 = .error .NoAvailableWork :=
  ⟨by decide, requestTask_no_available_work sFull 0 0 (by decide)⟩

/-- Witness: the workload-29 success theorem on the concrete state `s29`. -/
theorem requestTask_at_29_not_rejected_witness :
    getAgentWorkloadCount s29.assignments s29.products 0 = 29
      ∧ s29.products.filter (fun p => !p.assigned) ≠ []
      ∧ ∃ r, requestTask s29 0 0 = .ok r :=
  ⟨by decide, by decide,
   requestTask_at_29_not_rejected s29 0 0 (by decide) (by decide)⟩

/-- Witness: the success-workload theorem on the concrete transition from
`s29` to `s29after`. -/
theorem requestTask_success_workload_witness :
    requestTask s29 0 0 = .ok (s29after, pPending2)
      ∧ getAgentWorkloadCount s29.assignments s29.products 0 ≤ 29
      ∧ getAgentWorkloadCount s29after.assignments s29after.products 0
          = getAgentWorkloadCount s29.assignments s29.products 0
              + countOf s29after.products pPending2.id :=
  ⟨by decide,
   (requestTask_success_workload s29 0 0 s29after pPending2 (by decide)).1,
   (requestTask_success_workload s29 0 0 s29after pPending2 (by decide)).2⟩

/-- Witness: the missing-product contribution theorem with an empty
catalog and the concrete active assignment `aActive1`. -/
theorem workload_missing_or_falsy_witness :
    (([] : List Product).find? (fun p => p.id == 0) = none
        ∨ ∃ p, ([] : List Product).find? (fun p2 => p2.id == 0) = some p
            ∧ (p.count = none ∨ p.count = some 0))
      ∧ countOf [] 0 = 1
      ∧ ([aActive1].filter (isActiveFor 0)).length
          ≤ getAgentWorkloadCount [aActive1] [] 0 :=
  ⟨Or.inl rfl,
   (workload_missing_or_falsy_contributes_one [] [aActive1] 0 0 (Or.inl rfl)).1,
   (workload_missing_or_falsy_contributes_one [] [aActive1] 0 0 (Or.inl rfl)).2⟩

end ProductAssignment
